import Mathlib

/-!
# Verification of the Collective-Dynamics core

Shallow embedding of `src/geometry/curves.py` and `src/dynamics/curve_dynamics.py`
over the real numbers, together with theorems settling the frozen claims about
the differential-geometry engine and the particle-dynamics engine.
-/

noncomputable section

namespace CollectiveDynamics

/-! ## Vectors in R³ (numpy 3-arrays) -/

/-- A point/vector in R³, as used by the curve engine (`np.ndarray` of length 3). -/
structure Vec3 where
  x : ℝ
  y : ℝ
  z : ℝ

instance : Add Vec3 := ⟨fun a b => ⟨a.x + b.x, a.y + b.y, a.z + b.z⟩⟩

instance : Sub Vec3 := ⟨fun a b => ⟨a.x - b.x, a.y - b.y, a.z - b.z⟩⟩

instance : SMul ℝ Vec3 := ⟨fun r v => ⟨r * v.x, r * v.y, r * v.z⟩⟩

instance : Zero Vec3 := ⟨⟨0, 0, 0⟩⟩

@[simp] theorem Vec3.add_x (a b : Vec3) : (a + b).x = a.x + b.x := rfl

@[simp] theorem Vec3.add_y (a b : Vec3) : (a + b).y = a.y + b.y := rfl

@[simp] theorem Vec3.add_z (a b : Vec3) : (a + b).z = a.z + b.z := rfl

@[simp] theorem Vec3.sub_x (a b : Vec3) : (a - b).x = a.x - b.x := rfl

@[simp] theorem Vec3.sub_y (a b : Vec3) : (a - b).y = a.y - b.y := rfl

@[simp] theorem Vec3.sub_z (a b : Vec3) : (a - b).z = a.z - b.z := rfl

@[simp] theorem Vec3.smul_x (r : ℝ) (v : Vec3) : (r • v).x = r * v.x := rfl

@[simp] theorem Vec3.smul_y (r : ℝ) (v : Vec3) : (r • v).y = r * v.y := rfl

@[simp] theorem Vec3.smul_z (r : ℝ) (v : Vec3) : (r • v).z = r * v.z := rfl

@[ext] theorem Vec3.ext {a b : Vec3} (hx : a.x = b.x) (hy : a.y = b.y)
    (hz : a.z = b.z) : a = b := by
  cases a
  cases b
  simp_all

/-- Dot product (`np.dot`). -/
def Vec3.dot (a b : Vec3) : ℝ := a.x * b.x + a.y * b.y + a.z * b.z

/-- Cross product (`np.cross`). -/
def Vec3.cross (a b : Vec3) : Vec3 :=
  ⟨a.y * b.z - a.z * b.y, a.z * b.x - a.x * b.z, a.x * b.y - a.y * b.x⟩

/-- Euclidean norm (`np.linalg.norm`). -/
def Vec3.norm (v : Vec3) : ℝ := Real.sqrt (v.x ^ 2 + v.y ^ 2 + v.z ^ 2)

theorem Vec3.norm_nonneg (v : Vec3) : 0 ≤ v.norm := Real.sqrt_nonneg _

/-- Norm of a scalar multiple. -/
theorem Vec3.norm_smul (r : ℝ) (v : Vec3) : (r • v).norm = |r| * v.norm := by
  unfold Vec3.norm
  simp only [Vec3.smul_x, Vec3.smul_y, Vec3.smul_z]
  rw [show (r * v.x) ^ 2 + (r * v.y) ^ 2 + (r * v.z) ^ 2
        = r ^ 2 * (v.x ^ 2 + v.y ^ 2 + v.z ^ 2) by ring]
  rw [Real.sqrt_mul (sq_nonneg r), Real.sqrt_sq_eq_abs]

/-- Helper: a square root evaluates once the radicand is written as a square. -/
theorem sqrt_eq_of_sq {a b : ℝ} (hb : 0 ≤ b) (h : a = b ^ 2) : Real.sqrt a = b := by
  rw [h, Real.sqrt_sq hb]

/-! ## Error taxonomy (spec §7) -/

/-- Error raised when the tangent/normal direction is undefined
(`ValueError: Speed too small ...` in the source). -/
inductive DegenerateGeometry
  | mk

/-- Error the spec assigns to an ODE-solver failure. The source never
constructs it; the type is needed to state claim C1. -/
inductive SolverDivergence
  | mk

/-- `1e-10`: the fixed degeneracy epsilon used throughout `curves.py`. -/
def EPS : ℝ := 1e-10

theorem EPS_pos : 0 < EPS := by unfold EPS; norm_num

/-! ## ParametricCurve (src/geometry/curves.py) -/

/-- A parametric curve γ : ℝ → R³ with optional analytic derivatives and the
finite-difference step `dt` fixed at construction. -/
structure ParametricCurve where
  gamma : ℝ → Vec3
  gammaPrime : Option (ℝ → Vec3)
  gammaDoublePrime : Option (ℝ → Vec3)
  gammaTriplePrime : Option (ℝ → Vec3)
  dt : ℝ

/-- First derivative: analytic if supplied, else the central finite difference
`(γ(t+dt) − γ(t−dt)) / (2·dt)`. -/
def ParametricCurve.deriv1 (c : ParametricCurve) (t : ℝ) : Vec3 :=
  match c.gammaPrime with
  | some f => f t
  | none => (2 * c.dt)⁻¹ • (c.gamma (t + c.dt) - c.gamma (t - c.dt))

/-- Second derivative: analytic if supplied, else the central finite difference
of `deriv1`. -/
def ParametricCurve.deriv2 (c : ParametricCurve) (t : ℝ) : Vec3 :=
  match c.gammaDoublePrime with
  | some f => f t
  | none => (2 * c.dt)⁻¹ • (c.deriv1 (t + c.dt) - c.deriv1 (t - c.dt))

/-- Third derivative: analytic if supplied, else the central finite difference
of `deriv2`. -/
def ParametricCurve.deriv3 (c : ParametricCurve) (t : ℝ) : Vec3 :=
  match c.gammaTriplePrime with
  | some f => f t
  | none => (2 * c.dt)⁻¹ • (c.deriv2 (t + c.dt) - c.deriv2 (t - c.dt))

/-- `speed(t) = |γ'(t)|`. -/
def ParametricCurve.speed (c : ParametricCurve) (t : ℝ) : ℝ := (c.deriv1 t).norm

/-- `tangent(t)`: γ'(t)/|γ'(t)|, raising `DegenerateGeometry` when the speed is
below `EPS`. -/
def ParametricCurve.tangent (c : ParametricCurve) (t : ℝ) : Except DegenerateGeometry Vec3 :=
  let gp := c.deriv1 t
  if gp.norm < EPS then Except.error DegenerateGeometry.mk
  else Except.ok (gp.norm⁻¹ • gp)

/-- `curvature(t) = |γ' × γ''| / |γ'|³`, silently `0` when the denominator is
below `EPS`. -/
def ParametricCurve.curvature (c : ParametricCurve) (t : ℝ) : ℝ :=
  let gp := c.deriv1 t
  let gpp := c.deriv2 t
  let numerator := (Vec3.cross gp gpp).norm
  let denominator := gp.norm ^ 3
  if denominator < EPS then 0 else numerator / denominator

/-- `torsion(t) = ((γ' × γ'') · γ''') / |γ' × γ''|²`, silently `0` when the
denominator is below `EPS`. -/
def ParametricCurve.torsion (c : ParametricCurve) (t : ℝ) : ℝ :=
  let gp := c.deriv1 t
  let gpp := c.deriv2 t
  let gppp := c.deriv3 t
  let crossProduct := Vec3.cross gp gpp
  let numerator := Vec3.dot crossProduct gppp
  let denominator := crossProduct.norm ^ 2
  if denominator < EPS then 0 else numerator / denominator

/-- `normal(t)`: normalized central finite difference of the tangent field,
falling back to a Gram–Schmidt-orthogonalized axis vector when that difference
is degenerate. Tangent failures propagate. -/
def ParametricCurve.normal (c : ParametricCurve) (t : ℝ) : Except DegenerateGeometry Vec3 :=
  match c.tangent (t + c.dt) with
  | Except.error e => Except.error e
  | Except.ok tPlus =>
    match c.tangent (t - c.dt) with
    | Except.error e => Except.error e
    | Except.ok tMinus =>
      let tPrime := (2 * c.dt)⁻¹ • (tPlus - tMinus)
      if tPrime.norm < EPS then
        match c.tangent t with
        | Except.error e => Except.error e
        | Except.ok T =>
          let v : Vec3 := if |T.x| < 0.9 then ⟨1, 0, 0⟩ else ⟨0, 1, 0⟩
          let N := v - (Vec3.dot v T) • T
          Except.ok (N.norm⁻¹ • N)
      else
        Except.ok (tPrime.norm⁻¹ • tPrime)

/-- The fallback vector `normal` computes in its degenerate branch from the
unit tangent `T` (the source rule: `e_x` iff `|T.x| < 0.9` strictly). -/
def fallbackNormalCode (T : Vec3) : Vec3 :=
  let v : Vec3 := if |T.x| < 0.9 then ⟨1, 0, 0⟩ else ⟨0, 1, 0⟩
  let N := v - (Vec3.dot v T) • T
  N.norm⁻¹ • N

/-- The fallback vector as claim C3 words it: `e_x` whenever `|T.x|` does not
exceed `0.9` (i.e. `|T.x| ≤ 0.9`), `e_y` otherwise. -/
def fallbackNormalClaim (T : Vec3) : Vec3 :=
  let v : Vec3 := if |T.x| ≤ 0.9 then ⟨1, 0, 0⟩ else ⟨0, 1, 0⟩
  let N := v - (Vec3.dot v T) • T
  N.norm⁻¹ • N

/-- `np.linspace t0 t1 m`: `m` evenly spaced samples from `t0` to `t1`. -/
def linspace (t0 t1 : ℝ) (m : ℕ) : List ℝ :=
  (List.range m).map (fun i => t0 + (t1 - t0) * i / ((m - 1 : ℕ) : ℝ))

/-- `np.trapz y x`: trapezoidal quadrature of samples `y` against grid `x`. -/
def trapz : List ℝ → List ℝ → ℝ
  | y0 :: y1 :: ys, x0 :: x1 :: xs => (x1 - x0) * (y0 + y1) / 2 + trapz (y1 :: ys) (x1 :: xs)
  | _, _ => 0

/-- `arc_length(t0, t1, n_points)`: trapezoidal integral of `speed` over a
uniform grid of `m` samples. -/
def ParametricCurve.arc_length (c : ParametricCurve) (t0 t1 : ℝ) (m : ℕ) : ℝ :=
  let tValues := linspace t0 t1 m
  trapz (tValues.map (fun t => c.speed t)) tValues

/-- The `helix(radius, pitch)` fixture: analytic derivatives of all three
orders are supplied. -/
def helix (radius pitch : ℝ) : ParametricCurve where
  gamma := fun t =>
    ⟨radius * Real.cos t, radius * Real.sin t, pitch * t / (2 * Real.pi)⟩
  gammaPrime := some fun t =>
    ⟨-radius * Real.sin t, radius * Real.cos t, pitch / (2 * Real.pi)⟩
  gammaDoublePrime := some fun t =>
    ⟨-radius * Real.cos t, -radius * Real.sin t, 0⟩
  gammaTriplePrime := some fun t =>
    ⟨radius * Real.sin t, -radius * Real.cos t, 0⟩
  dt := 1e-5

/-! ## Dynamics (src/dynamics/curve_dynamics.py) -/

/-- `ConstantSpeedDynamics.equations_of_motion`: the constructor stores `speed`
but the acceleration law only reads the curve derivatives. -/
def ConstantSpeedDynamics.equations_of_motion (c : ParametricCurve) (speed : ℝ)
    (t position velocity : ℝ) : ℝ × ℝ :=
  let gammaPrime := c.deriv1 position
  let gammaDoublePrime := c.deriv2 position
  let normGammaPrime := gammaPrime.norm
  if normGammaPrime < EPS then (velocity, 0)
  else
    (velocity,
      -(Vec3.dot gammaPrime gammaDoublePrime / normGammaPrime ^ 2) * velocity ^ 2)

/-- Multi-particle state: the flat `2N` vector `[t₁..tₙ, v₁..vₙ]`, presented
as its position block and velocity block. -/
structure PVState (n : ℕ) where
  pos : Fin n → ℝ
  vel : Fin n → ℝ

instance {n : ℕ} : Add (PVState n) :=
  ⟨fun a b => ⟨fun i => a.pos i + b.pos i, fun i => a.vel i + b.vel i⟩⟩

instance {n : ℕ} : SMul ℝ (PVState n) :=
  ⟨fun r a => ⟨fun i => r * a.pos i, fun i => r * a.vel i⟩⟩

instance {n : ℕ} : Zero (PVState n) := ⟨⟨fun _ => 0, fun _ => 0⟩⟩

@[simp] theorem PVState.add_pos {n : ℕ} (a b : PVState n) (i : Fin n) :
    (a + b).pos i = a.pos i + b.pos i := rfl

@[simp] theorem PVState.add_vel {n : ℕ} (a b : PVState n) (i : Fin n) :
    (a + b).vel i = a.vel i + b.vel i := rfl

@[simp] theorem PVState.smul_pos {n : ℕ} (r : ℝ) (a : PVState n) (i : Fin n) :
    (r • a).pos i = r * a.pos i := rfl

@[simp] theorem PVState.smul_vel {n : ℕ} (r : ℝ) (a : PVState n) (i : Fin n) :
    (r • a).vel i = r * a.vel i := rfl

@[simp] theorem PVState.zero_pos {n : ℕ} (i : Fin n) : (0 : PVState n).pos i = 0 := rfl

@[simp] theorem PVState.zero_vel {n : ℕ} (i : Fin n) : (0 : PVState n).vel i = 0 := rfl

/-- `MultiParticleSystem.equations_of_motion`: position block moves by the
velocity block; the force accumulator starts at zero, adds the interaction if
present, adds the per-particle external force if present, then subtracts
linear damping. -/
def MultiParticleSystem.equations_of_motion (n : ℕ)
    (interaction : Option ((Fin n → ℝ) → (Fin n → ℝ) → Fin n → ℝ))
    (time : ℝ) (state : PVState n) (damping : ℝ)
    (externalForce : Option (ℝ → ℝ → ℝ → ℝ)) : PVState n :=
  let positions := state.pos
  let velocities := state.vel
  let forces0 : Fin n → ℝ := fun _ => 0
  let forces1 : Fin n → ℝ :=
    match interaction with
    | some f => fun i => forces0 i + f positions velocities i
    | none => forces0
  let forces2 : Fin n → ℝ :=
    match externalForce with
    | some g => fun i => forces1 i + g time (positions i) (velocities i)
    | none => forces1
  let forces3 : Fin n → ℝ := fun i => forces2 i - damping * velocities i
  { pos := velocities, vel := forces3 }

/-- `kuramoto_interaction(coupling, natural_frequencies)`:
`F_i = ω_i + (K/N) Σ_{j≠i} sin(θ_j − θ_i)`. -/
def kuramoto_interaction (n : ℕ) (coupling : ℝ)
    (naturalFrequencies : Option (Fin n → ℝ))
    (positions velocities : Fin n → ℝ) : Fin n → ℝ :=
  fun i =>
    (match naturalFrequencies with
     | some omega => omega i
     | none => 0)
    + ∑ j, if j ≠ i then (coupling / n) * Real.sin (positions j - positions i) else 0

/-- `vicsek_like_interaction(coupling, noise)`: alignment with the mean
velocity; the random perturbation (`randn`) is only consulted when
`noise > 0`. -/
def vicsek_like_interaction (n : ℕ) (coupling noise : ℝ) (randn : Fin n → ℝ)
    (positions velocities : Fin n → ℝ) : Fin n → ℝ :=
  fun i =>
    let avgVelocity := (∑ j, velocities j) / n
    let base := coupling * (avgVelocity - velocities i)
    if 0 < noise then base + noise * randn i else base

/-! ## The solver interface consumed by `integrate` -/

/-- Outcome of `scipy.integrate.solve_ivp` as consumed by the repository:
a success flag and the (possibly truncated, on failure) time/state arrays. -/
structure SolveIvpResult (σ : Type) where
  success : Bool
  ts : List ℝ
  states : List σ

/-- Post-processing of the solver outcome in `CurveDynamics.integrate`:
the source returns `solution.t, solution.y[0], solution.y[1]` unconditionally,
with no success check and no raise. -/
def CurveDynamics.integrate (sol : SolveIvpResult (ℝ × ℝ)) :
    Except SolverDivergence (List ℝ × List ℝ × List ℝ) :=
  Except.ok (sol.ts, sol.states.map Prod.fst, sol.states.map Prod.snd)

/-- Post-processing of the solver outcome in `MultiParticleSystem.integrate`:
the source slices `solution.y` into position and velocity blocks and returns
them unconditionally, with no success check and no raise. -/
def MultiParticleSystem.integrate (n : ℕ) (sol : SolveIvpResult (PVState n)) :
    Except SolverDivergence (List ℝ × List (Fin n → ℝ) × List (Fin n → ℝ)) :=
  Except.ok (sol.ts, sol.states.map PVState.pos, sol.states.map PVState.vel)

/-! ## Explicit Runge–Kutta stepping with dense output (claim C7)

Modelled from the spec: the integration contract advances the state with an
adaptive-step explicit Runge–Kutta solver (order 4/5 family) and resamples via
the solver's dense/interpolated output.  The solver itself is external
(`scipy`), so it is modelled as an arbitrary explicit Runge–Kutta method: an
arbitrary Butcher tableau, arbitrary step sequence, and dense output taken as
an arbitrary linear combination of the stage derivatives. -/

/-- Linear combination `Σ aᵢ • uᵢ` of states, as used by every explicit
Runge–Kutta stage, update, and dense-output interpolant. -/
def lincomb {n : ℕ} : List ℝ → List (PVState n) → PVState n
  | a :: as, u :: us => a • u + lincomb as us
  | _, _ => 0

/-- Stage derivatives of one explicit Runge–Kutta step: each tableau row
`(c, row)` contributes `f (t + c·h) (y + h • Σ row·ks)`. -/
def rkStages {n : ℕ} (f : ℝ → PVState n → PVState n) (t h : ℝ) (y : PVState n) :
    List (ℝ × List ℝ) → List (PVState n) → List (PVState n)
  | [], ks => ks
  | (c, row) :: rest, ks =>
      rkStages f t h y rest (ks ++ [f (t + c * h) (y + h • lincomb row ks)])

/-- One explicit Runge–Kutta step `y + h • Σ bᵢ • kᵢ`. -/
def rkStep {n : ℕ} (f : ℝ → PVState n → PVState n) (A : List (ℝ × List ℝ))
    (b : List ℝ) (t h : ℝ) (y : PVState n) : PVState n :=
  y + h • lincomb b (rkStages f t h y A [])

/-- Iterated Runge–Kutta stepping over an arbitrary (adaptive) sequence of
step times and step sizes. -/
def rkTraj {n : ℕ} (f : ℝ → PVState n → PVState n) (A : List (ℝ × List ℝ))
    (b : List ℝ) (y : PVState n) : List (ℝ × ℝ) → PVState n
  | [] => y
  | (t, h) :: steps => rkTraj f A b (rkStep f A b t h y) steps

/-- Dense output: the interpolants of the RK45 family evaluate to
`y + h • Σ wᵢ(σ) • kᵢ` for interpolation weights `w`. -/
def denseOutput {n : ℕ} (f : ℝ → PVState n → PVState n) (A : List (ℝ × List ℝ))
    (wts : List ℝ) (t h : ℝ) (y : PVState n) : PVState n :=
  y + h • lincomb wts (rkStages f t h y A [])

/-- Perfect synchrony: all particles share one position and one velocity. -/
def Synced {n : ℕ} (s : PVState n) : Prop :=
  (∀ i j, s.pos i = s.pos j) ∧ (∀ i j, s.vel i = s.vel j)

/-- The Kuramoto order parameter `|mean (exp (i·θ))|`. -/
def orderParameter (n : ℕ) (theta : Fin n → ℝ) : ℝ :=
  Complex.abs ((∑ i, Complex.exp ((theta i : ℂ) * Complex.I)) / n)

/-- The right-hand side integrated in claim C7: Kuramoto coupling, identical
natural frequencies `w`, default damping `0`, no external force. -/
def kuramotoSystemRHS (n : ℕ) (coupling w : ℝ) : ℝ → PVState n → PVState n :=
  fun time s =>
    MultiParticleSystem.equations_of_motion n
      (some (kuramoto_interaction n coupling (some fun _ => w))) time s 0 none

/-- All particles started at one position with one velocity. -/
def syncedInit (n : ℕ) (theta0 v0 : ℝ) : PVState n :=
  ⟨fun _ => theta0, fun _ => v0⟩

/-! ## Concrete fixtures used by witnesses and counterexamples -/

/-- A straight line with unit-speed analytic derivative, used to exercise the
degenerate (fallback) branch of `normal`. -/
def lineCurveX : ParametricCurve where
  gamma := fun t => ⟨t, 0, 0⟩
  gammaPrime := some fun _ => ⟨1, 0, 0⟩
  gammaDoublePrime := some fun _ => ⟨0, 0, 0⟩
  gammaTriplePrime := some fun _ => ⟨0, 0, 0⟩
  dt := 1e-5

/-- A straight line whose unit tangent has x-component exactly `9/10`:
the boundary case of the fallback axis-selection rule. -/
def lineCurve09 : ParametricCurve where
  gamma := fun t => ⟨9 * t, Real.sqrt 19 * t, 0⟩
  gammaPrime := some fun _ => ⟨9, Real.sqrt 19, 0⟩
  gammaDoublePrime := some fun _ => ⟨0, 0, 0⟩
  gammaTriplePrime := some fun _ => ⟨0, 0, 0⟩
  dt := 1e-5

/-- A failed single-particle solver outcome: tolerances not met, output
truncated to a single sample. -/
def failedCurveSol : SolveIvpResult (ℝ × ℝ) :=
  { success := false, ts := [0], states := [(0, 0)] }

/-- A failed one-particle multi-particle solver outcome. -/
def failedMultiSol : SolveIvpResult (PVState 1) :=
  { success := false, ts := [0], states := [⟨fun _ => 0, fun _ => 0⟩] }

/-! ## Claim theorems -/

/-- Claim C9: the acceleration law of `ConstantSpeedDynamics` never reads the
`speed` stored by the constructor, so two instances over the same curve built
with different speed arguments return identical `(dposition/dτ, dvelocity/dτ)`
pairs at every time, position, and velocity. -/
theorem C9_constant_speed_independent (c : ParametricCurve)
    (speed1 speed2 t position velocity : ℝ) :
    ConstantSpeedDynamics.equations_of_motion c speed1 t position velocity
      = ConstantSpeedDynamics.equations_of_motion c speed2 t position velocity := rfl

/-- Claim C8: for every state of length `2N`, `equations_of_motion` returns the
velocity block as the position derivative, and as the velocity derivative the
interaction force (zero when absent) plus the external force evaluated at
`(time, position_i, velocity_i)` (zero when absent) minus damping times the
velocity. -/
theorem C8_multi_eom_blocks (n : ℕ)
    (interaction : Option ((Fin n → ℝ) → (Fin n → ℝ) → Fin n → ℝ))
    (time : ℝ) (state : PVState n) (damping : ℝ)
    (externalForce : Option (ℝ → ℝ → ℝ → ℝ)) :
    (MultiParticleSystem.equations_of_motion n interaction time state damping
        externalForce).pos = state.vel
    ∧ ∀ i, (MultiParticleSystem.equations_of_motion n interaction time state damping
        externalForce).vel i =
      (match interaction with
       | some f => f state.pos state.vel i
       | none => 0)
      + (match externalForce with
         | some g => g time (state.pos i) (state.vel i)
         | none => 0)
      - damping * state.vel i := by
  refine ⟨rfl, fun i => ?_⟩
  cases interaction <;> cases externalForce <;>
    simp [MultiParticleSystem.equations_of_motion]

/-- Claim C1 (counterexample): on a failed solver outcome both `integrate`
methods still return `Except.ok` — the truncated arrays are handed back and no
`SolverDivergence` error is surfaced, contradicting the claim. -/
theorem C1_counterexample :
    failedCurveSol.success = false
    ∧ (CurveDynamics.integrate failedCurveSol).isOk = true
    ∧ CurveDynamics.integrate failedCurveSol = Except.ok ([0], [0], [0])
    ∧ failedMultiSol.success = false
    ∧ (MultiParticleSystem.integrate 1 failedMultiSol).isOk = true := by
  refine ⟨rfl, rfl, ?_, rfl, rfl⟩
  simp [CurveDynamics.integrate, failedCurveSol]

/-- Claim C1 (amended): both `integrate` methods return the solver's
(possibly truncated) times/positions/velocities unconditionally; they never
produce a `SolverDivergence` error, even when the solver reports failure. -/
theorem C1_integrate_never_errors (sol : SolveIvpResult (ℝ × ℝ)) (n : ℕ)
    (msol : SolveIvpResult (PVState n)) :
    CurveDynamics.integrate sol
        = Except.ok (sol.ts, sol.states.map Prod.fst, sol.states.map Prod.snd)
    ∧ (CurveDynamics.integrate sol).isOk = true
    ∧ MultiParticleSystem.integrate n msol
        = Except.ok (msol.ts, msol.states.map PVState.pos, msol.states.map PVState.vel)
    ∧ (MultiParticleSystem.integrate n msol).isOk = true :=
  ⟨rfl, rfl, rfl, rfl⟩

/-- Claim C10: with zero noise the Vicsek-like alignment force field sums to
exactly zero over any configuration of `N ≥ 1` particles. -/
theorem C10_vicsek_sum_zero (n : ℕ) (hn : 1 ≤ n) (coupling : ℝ)
    (randn positions velocities : Fin n → ℝ) :
    ∑ i, vicsek_like_interaction n coupling 0 randn positions velocities i = 0 := by
  have hn' : ((n : ℝ)) ≠ 0 := Nat.cast_ne_zero.mpr (by omega)
  simp only [vicsek_like_interaction, lt_self_iff_false, if_false]
  rw [← Finset.mul_sum, Finset.sum_sub_distrib, Finset.sum_const,
    Finset.card_univ, Fintype.card_fin, nsmul_eq_mul]
  have hca : (n : ℝ) * ((∑ j, velocities j) / n) = ∑ j, velocities j := by
    field_simp
  rw [hca, sub_self, mul_zero]

/-- Witness for C10 at a concrete two-particle configuration. -/
theorem C10_vicsek_sum_zero_witness :
    1 ≤ 2
    ∧ ∑ i, vicsek_like_interaction 2 5 0 (fun _ => 7) (fun _ => 0)
        (fun j => (j : ℝ)) i = 0 :=
  ⟨by decide, C10_vicsek_sum_zero 2 (by decide) 5 (fun _ => 7) (fun _ => 0)
    (fun j => (j : ℝ))⟩

/-- Claim C2: `tangent(t)` fails with `DegenerateGeometry` exactly when the
first derivative's norm is below `1e-10`; otherwise it returns the first
derivative normalized to a unit vector; in particular it fails wherever the
speed is exactly `0`. -/
theorem C2_tangent_spec (c : ParametricCurve) (t : ℝ) :
    (c.tangent t = Except.error DegenerateGeometry.mk ↔ (c.deriv1 t).norm < EPS)
    ∧ (¬ (c.deriv1 t).norm < EPS →
        c.tangent t = Except.ok ((c.deriv1 t).norm⁻¹ • c.deriv1 t)
        ∧ ((c.deriv1 t).norm⁻¹ • c.deriv1 t).norm = 1)
    ∧ ((c.deriv1 t).norm = 0 → c.tangent t = Except.error DegenerateGeometry.mk) := by
  unfold ParametricCurve.tangent
  by_cases hlt : (c.deriv1 t).norm < EPS
  · refine ⟨by simp [hlt], fun h => absurd hlt h, fun _ => by simp [hlt]⟩
  · have hne : (c.deriv1 t).norm ≠ 0 := by
      intro h0
      exact hlt (h0 ▸ EPS_pos)
    refine ⟨by simp [hlt], fun _ => ⟨by simp [hlt], ?_⟩, fun h0 => absurd (h0 ▸ EPS_pos) hlt⟩
    rw [Vec3.norm_smul, abs_inv, abs_of_nonneg (Vec3.norm_nonneg _), inv_mul_cancel₀ hne]

/-- Witness for C2: on a unit-speed line the tangent succeeds and is a unit
vector. -/
theorem C2_tangent_witness :
    lineCurveX.tangent 0 = Except.ok ((lineCurveX.deriv1 0).norm⁻¹ • lineCurveX.deriv1 0)
    ∧ ((lineCurveX.deriv1 0).norm⁻¹ • lineCurveX.deriv1 0).norm = 1 := by
  have hn : (lineCurveX.deriv1 0).norm = 1 := by
    show (Vec3.mk 1 0 0).norm = 1
    unfold Vec3.norm
    norm_num
  exact (C2_tangent_spec lineCurveX 0).2.1 (by rw [hn]; unfold EPS; norm_num)

/-- Claim C4: `curvature` and `torsion` are total: below the `1e-10`
denominator threshold each returns exactly `0`, above it they return the
Frenet formulas, and curvature is never negative. -/
theorem C4_silent_zero_policy (c : ParametricCurve) (t : ℝ) :
    c.curvature t = (if (c.deriv1 t).norm ^ 3 < EPS then 0
        else (Vec3.cross (c.deriv1 t) (c.deriv2 t)).norm / (c.deriv1 t).norm ^ 3)
    ∧ 0 ≤ c.curvature t
    ∧ c.torsion t = (if (Vec3.cross (c.deriv1 t) (c.deriv2 t)).norm ^ 2 < EPS then 0
        else Vec3.dot (Vec3.cross (c.deriv1 t) (c.deriv2 t)) (c.deriv3 t)
          / (Vec3.cross (c.deriv1 t) (c.deriv2 t)).norm ^ 2) := by
  refine ⟨rfl, ?_, rfl⟩
  unfold ParametricCurve.curvature
  by_cases hlt : (c.deriv1 t).norm ^ 3 < EPS
  · simp [hlt]
  · simp only [hlt, if_false]
    have hden : 0 < (c.deriv1 t).norm ^ 3 := lt_of_lt_of_le EPS_pos (not_lt.mp hlt)
    exact div_nonneg (Vec3.norm_nonneg _) hden.le

/-- Trapezoidal quadrature over a constant grid vanishes. -/
theorem trapz_const (t0 : ℝ) :
    ∀ (ys xs : List ℝ), (∀ a ∈ xs, a = t0) → trapz ys xs = 0 := by
  intro ys
  induction ys with
  | nil =>
    intro xs _
    cases xs with
    | nil => rfl
    | cons x0 xs' => cases xs' <;> rfl
  | cons y0 ys ih =>
    intro xs h
    cases ys with
    | nil =>
      cases xs with
      | nil => rfl
      | cons x0 xs' => cases xs' <;> rfl
    | cons y1 ys' =>
      cases xs with
      | nil => rfl
      | cons x0 xs' =>
        cases xs' with
        | nil => rfl
        | cons x1 xs'' =>
          have hx0 : x0 = t0 := h x0 (List.mem_cons_self _ _)
          have hx1 : x1 = t0 := h x1 (List.mem_cons_of_mem _ (List.mem_cons_self _ _))
          have hrec := ih (x1 :: xs'') (fun a ha => h a (List.mem_cons_of_mem _ ha))
          show (x1 - x0) * (y0 + y1) / 2 + trapz (y1 :: ys') (x1 :: xs'') = 0
          rw [hrec, hx0, hx1]
          ring

/-- Every sample of a degenerate `linspace` is the endpoint itself. -/
theorem linspace_mem_self (t0 : ℝ) (m : ℕ) : ∀ a ∈ linspace t0 t0 m, a = t0 := by
  intro a ha
  unfold linspace at ha
  rw [List.mem_map] at ha
  obtain ⟨i, _, rfl⟩ := ha
  simp

/-- Claim C6: `arc_length(t0, t0, n)` is exactly `0` for every curve, every
parameter `t0`, and every sample count `n`. -/
theorem C6_arc_length_degenerate (c : ParametricCurve) (t0 : ℝ) (m : ℕ) :
    c.arc_length t0 t0 m = 0 := by
  unfold ParametricCurve.arc_length
  exact trapz_const t0 _ _ (linspace_mem_self t0 m)

/-! ### Synchrony is preserved by every explicit Runge–Kutta trajectory -/

theorem synced_zero {n : ℕ} : Synced (0 : PVState n) :=
  ⟨fun _ _ => rfl, fun _ _ => rfl⟩

theorem Synced.add {n : ℕ} {a b : PVState n} (ha : Synced a) (hb : Synced b) :
    Synced (a + b) :=
  ⟨fun i j => by simp [ha.1 i j, hb.1 i j], fun i j => by simp [ha.2 i j, hb.2 i j]⟩

theorem Synced.smul {n : ℕ} (r : ℝ) {a : PVState n} (ha : Synced a) :
    Synced (r • a) :=
  ⟨fun i j => by simp [ha.1 i j], fun i j => by simp [ha.2 i j]⟩

theorem synced_lincomb {n : ℕ} :
    ∀ (as : List ℝ) (us : List (PVState n)), (∀ u ∈ us, Synced u) →
      Synced (lincomb as us) := by
  intro as
  induction as with
  | nil => intro us _; cases us <;> exact synced_zero
  | cons a as ih =>
    intro us h
    cases us with
    | nil => exact synced_zero
    | cons u us' =>
      exact (Synced.smul a (h u (List.mem_cons_self _ _))).add
        (ih us' (fun v hv => h v (List.mem_cons_of_mem _ hv)))

theorem rkStages_synced {n : ℕ} {f : ℝ → PVState n → PVState n}
    (hf : ∀ time s, Synced s → Synced (f time s)) {t h : ℝ} {y : PVState n}
    (hy : Synced y) :
    ∀ (A : List (ℝ × List ℝ)) (ks : List (PVState n)), (∀ u ∈ ks, Synced u) →
      ∀ u ∈ rkStages f t h y A ks, Synced u := by
  intro A
  induction A with
  | nil => intro ks hks u hu; exact hks u hu
  | cons row rest ih =>
    intro ks hks u hu
    obtain ⟨c, coeffs⟩ := row
    refine ih (ks ++ [f (t + c * h) (y + h • lincomb coeffs ks)]) ?_ u hu
    intro v hv
    rcases List.mem_append.mp hv with hv' | hv'
    · exact hks v hv'
    · rw [List.mem_singleton.mp hv']
      exact hf _ _ (hy.add (Synced.smul h (synced_lincomb coeffs ks hks)))

theorem rkStep_synced {n : ℕ} {f : ℝ → PVState n → PVState n}
    (hf : ∀ time s, Synced s → Synced (f time s)) (A : List (ℝ × List ℝ))
    (b : List ℝ) (t h : ℝ) {y : PVState n} (hy : Synced y) :
    Synced (rkStep f A b t h y) :=
  hy.add (Synced.smul h
    (synced_lincomb b _ (rkStages_synced hf hy A [] (fun _ hu => absurd hu (by simp)))))

theorem rkTraj_synced {n : ℕ} {f : ℝ → PVState n → PVState n}
    (hf : ∀ time s, Synced s → Synced (f time s)) (A : List (ℝ × List ℝ))
    (b : List ℝ) :
    ∀ (steps : List (ℝ × ℝ)) {y : PVState n}, Synced y →
      Synced (rkTraj f A b y steps) := by
  intro steps
  induction steps with
  | nil => intro y hy; exact hy
  | cons st rest ih =>
    intro y hy
    obtain ⟨t, h⟩ := st
    exact ih (rkStep_synced hf A b t h hy)

theorem denseOutput_synced {n : ℕ} {f : ℝ → PVState n → PVState n}
    (hf : ∀ time s, Synced s → Synced (f time s)) (A : List (ℝ × List ℝ))
    (wts : List ℝ) (t h : ℝ) {y : PVState n} (hy : Synced y) :
    Synced (denseOutput f A wts t h y) :=
  hy.add (Synced.smul h
    (synced_lincomb wts _ (rkStages_synced hf hy A [] (fun _ hu => absurd hu (by simp)))))

/-- The Kuramoto right-hand side with identical natural frequencies maps
synchronized states to synchronized derivatives. -/
theorem kuramotoRHS_synced (n : ℕ) (coupling w : ℝ) (time : ℝ) (s : PVState n)
    (hs : Synced s) : Synced (kuramotoSystemRHS n coupling w time s) := by
  unfold kuramotoSystemRHS MultiParticleSystem.equations_of_motion
  refine ⟨fun i j => hs.2 i j, fun i j => ?_⟩
  have hforce : ∀ i : Fin n,
      kuramoto_interaction n coupling (some fun _ => w) s.pos s.vel i = w := by
    intro i
    unfold kuramoto_interaction
    have hzero : (∑ j, if j ≠ i then
        (coupling / n) * Real.sin (s.pos j - s.pos i) else 0) = 0 := by
      refine Finset.sum_eq_zero (fun j _ => ?_)
      by_cases hji : j ≠ i
      · rw [if_pos hji, hs.1 j i, sub_self, Real.sin_zero, mul_zero]
      · rw [if_neg hji]
    rw [hzero, add_zero]
  show 0 + kuramoto_interaction n coupling (some fun _ => w) s.pos s.vel i
        - 0 * s.vel i
      = 0 + kuramoto_interaction n coupling (some fun _ => w) s.pos s.vel j
        - 0 * s.vel j
  rw [hforce i, hforce j, zero_mul, zero_mul]

/-- A constant phase configuration has Kuramoto order parameter exactly 1. -/
theorem orderParameter_const (n : ℕ) (hn : 0 < n) (theta : Fin n → ℝ)
    (htheta : ∀ i j, theta i = theta j) : orderParameter n theta = 1 := by
  have i0 : Fin n := ⟨0, hn⟩
  have hsum : (∑ i, Complex.exp ((theta i : ℂ) * Complex.I))
      = (n : ℂ) * Complex.exp ((theta i0 : ℂ) * Complex.I) := by
    rw [Finset.sum_congr rfl (fun i _ => by rw [htheta i i0])]
    rw [Finset.sum_const, Finset.card_univ, Fintype.card_fin, nsmul_eq_mul]
  have hn' : (n : ℂ) ≠ 0 := Nat.cast_ne_zero.mpr hn.ne'
  unfold orderParameter
  rw [hsum, mul_div_cancel_left₀ _ hn', Complex.abs_exp]
  simp [Complex.mul_I_re]

/-- Claim C7: for the Kuramoto interaction with identical natural frequencies
and all particles started at one position and one velocity, every state an
explicit Runge–Kutta integration can output — after any adaptive step
sequence and any dense-output interpolation — keeps all positions identical,
so the order parameter `|mean (exp (i·θ))|` stays exactly 1 throughout. -/
theorem C7_kuramoto_synchrony (n : ℕ) (hn : 0 < n) (coupling w theta0 v0 : ℝ)
    (A : List (ℝ × List ℝ)) (b wts : List ℝ) (steps : List (ℝ × ℝ)) (t h : ℝ) :
    Synced (denseOutput (kuramotoSystemRHS n coupling w) A wts t h
        (rkTraj (kuramotoSystemRHS n coupling w) A b (syncedInit n theta0 v0) steps))
    ∧ orderParameter n (denseOutput (kuramotoSystemRHS n coupling w) A wts t h
        (rkTraj (kuramotoSystemRHS n coupling w) A b (syncedInit n theta0 v0)
          steps)).pos = 1 := by
  have hf := kuramotoRHS_synced n coupling w
  have h0 : Synced (syncedInit n theta0 v0) := ⟨fun _ _ => rfl, fun _ _ => rfl⟩
  have h1 := rkTraj_synced (fun time s => hf time s) A b steps h0
  have h2 := denseOutput_synced (fun time s => hf time s) A wts t h h1
  exact ⟨h2, orderParameter_const n hn _ h2.1⟩

/-- Witness for C7 at a concrete one-particle system with trivial tableau. -/
theorem C7_kuramoto_synchrony_witness :
    0 < 1
    ∧ orderParameter 1 (denseOutput (kuramotoSystemRHS 1 1 0) [] [] 0 0
        (rkTraj (kuramotoSystemRHS 1 1 0) [] [] (syncedInit 1 0 0) [])).pos = 1 :=
  ⟨Nat.zero_lt_one,
    (C7_kuramoto_synchrony 1 Nat.zero_lt_one 1 0 0 0 [] [] [] [] 0 0).2⟩

/-! ### The `normal` fallback branch (claim C3) -/

/-- Evaluation of `normal` in its degenerate branch: when all tangent calls
succeed and the central finite difference of the tangent field is below `EPS`,
the result is the Gram–Schmidt fallback computed from the unit tangent. -/
theorem normal_eval_fallback (c : ParametricCurve) (t : ℝ) (tPlus tMinus T : Vec3)
    (hp : c.tangent (t + c.dt) = Except.ok tPlus)
    (hm : c.tangent (t - c.dt) = Except.ok tMinus)
    (h0 : c.tangent t = Except.ok T)
    (hsmall : ((2 * c.dt)⁻¹ • (tPlus - tMinus)).norm < EPS) :
    c.normal t = Except.ok (fallbackNormalCode T) := by
  unfold ParametricCurve.normal
  rw [hp, hm]
  simp only
  rw [if_pos hsmall, h0]
  rfl

/-- Claim C3 (amended): whenever the central finite difference of the tangent
field at `t` has norm below `1e-10` (and the tangent evaluations succeed),
`normal(t)` returns the fallback obtained by choosing `e_x` when `|T.x| < 0.9`
strictly and `e_y` otherwise — so at `|T.x|` exactly `0.9` the code picks
`e_y` — then Gram–Schmidt-orthogonalizing against the tangent and
normalizing. -/
theorem C3_normal_fallback (c : ParametricCurve) (t : ℝ) (tPlus tMinus T : Vec3)
    (hp : c.tangent (t + c.dt) = Except.ok tPlus)
    (hm : c.tangent (t - c.dt) = Except.ok tMinus)
    (h0 : c.tangent t = Except.ok T)
    (hsmall : ((2 * c.dt)⁻¹ • (tPlus - tMinus)).norm < EPS) :
    c.normal t = Except.ok (fallbackNormalCode T) :=
  normal_eval_fallback c t tPlus tMinus T hp hm h0 hsmall

/-- The tangent of the unit-speed line is everywhere `e_x`. -/
theorem lineCurveX_tangent (x : ℝ) : lineCurveX.tangent x = Except.ok ⟨1, 0, 0⟩ := by
  unfold ParametricCurve.tangent
  have hd : lineCurveX.deriv1 x = ⟨1, 0, 0⟩ := rfl
  have hn : (Vec3.mk 1 0 0).norm = 1 := by
    unfold Vec3.norm
    norm_num
  rw [hd]
  simp only [hn]
  rw [if_neg (by unfold EPS; norm_num)]
  refine congrArg Except.ok (Vec3.ext ?_ ?_ ?_) <;> simp

/-- Witness for C3 on the unit-speed line: the finite difference of the
constant tangent field vanishes and `normal` returns the fallback vector. -/
theorem C3_normal_fallback_witness :
    lineCurveX.normal 0 = Except.ok (fallbackNormalCode ⟨1, 0, 0⟩) := by
  have hz : ((2 * lineCurveX.dt)⁻¹ • ((⟨1, 0, 0⟩ : Vec3) - ⟨1, 0, 0⟩)).norm = 0 := by
    unfold Vec3.norm
    simp
  exact C3_normal_fallback lineCurveX 0 ⟨1, 0, 0⟩ ⟨1, 0, 0⟩ ⟨1, 0, 0⟩
    (lineCurveX_tangent _) (lineCurveX_tangent _) (lineCurveX_tangent _)
    (by rw [hz]; exact EPS_pos)

/-- The tangent of the boundary line is everywhere `(9/10, √19/10, 0)`. -/
theorem lineCurve09_tangent (x : ℝ) :
    lineCurve09.tangent x = Except.ok ⟨9 / 10, Real.sqrt 19 / 10, 0⟩ := by
  have hs2 : Real.sqrt 19 ^ 2 = 19 := Real.sq_sqrt (by norm_num)
  unfold ParametricCurve.tangent
  have hd : lineCurve09.deriv1 x = ⟨9, Real.sqrt 19, 0⟩ := rfl
  have hn : (Vec3.mk 9 (Real.sqrt 19) 0).norm = 10 := by
    unfold Vec3.norm
    refine sqrt_eq_of_sq (by norm_num) ?_
    linear_combination hs2
  rw [hd]
  simp only [hn]
  rw [if_neg (by unfold EPS; norm_num)]
  refine congrArg Except.ok (Vec3.ext ?_ ?_ ?_) <;> simp <;> ring

/-- The code's fallback at the boundary tangent: `e_y` is selected. -/
theorem fallbackCode09 :
    fallbackNormalCode ⟨9 / 10, Real.sqrt 19 / 10, 0⟩
      = ⟨-(Real.sqrt 19 / 10), 9 / 10, 0⟩ := by
  have hs2 : Real.sqrt 19 ^ 2 = 19 := Real.sq_sqrt (by norm_num)
  unfold fallbackNormalCode
  rw [if_neg (by rw [abs_of_nonneg (by norm_num : (0 : ℝ) ≤ 9 / 10)]; norm_num)]
  have hdot : Vec3.dot ⟨0, 1, 0⟩ ⟨9 / 10, Real.sqrt 19 / 10, 0⟩
      = Real.sqrt 19 / 10 := by
    unfold Vec3.dot
    ring
  simp only [hdot]
  have hN : (Vec3.mk 0 1 0) - (Real.sqrt 19 / 10) • ⟨9 / 10, Real.sqrt 19 / 10, 0⟩
      = ⟨-(9 * Real.sqrt 19 / 100), 81 / 100, 0⟩ := by
    refine Vec3.ext ?_ ?_ ?_ <;> simp
    · ring
    · linear_combination (-(1 : ℝ) / 100) * hs2
  rw [hN]
  have hNn : (Vec3.mk (-(9 * Real.sqrt 19 / 100)) (81 / 100) 0).norm = 9 / 10 := by
    unfold Vec3.norm
    refine sqrt_eq_of_sq (by norm_num) ?_
    linear_combination (81 / 10000 : ℝ) * hs2
  rw [hNn]
  refine Vec3.ext ?_ ?_ ?_ <;> simp <;> ring

/-- The claim's fallback rule at the boundary tangent: `e_x` is selected. -/
theorem fallbackClaim09 :
    fallbackNormalClaim ⟨9 / 10, Real.sqrt 19 / 10, 0⟩
      = ⟨Real.sqrt 19 / 10, -(9 / 10), 0⟩ := by
  have hs2 : Real.sqrt 19 ^ 2 = 19 := Real.sq_sqrt (by norm_num)
  have hs0 : (0 : ℝ) < Real.sqrt 19 := Real.sqrt_pos.mpr (by norm_num)
  unfold fallbackNormalClaim
  rw [if_pos (by rw [abs_of_nonneg (by norm_num : (0 : ℝ) ≤ 9 / 10)]; norm_num)]
  have hdot : Vec3.dot ⟨1, 0, 0⟩ ⟨9 / 10, Real.sqrt 19 / 10, 0⟩ = 9 / 10 := by
    unfold Vec3.dot
    ring
  simp only [hdot]
  have hN : (Vec3.mk 1 0 0) - (9 / 10 : ℝ) • ⟨9 / 10, Real.sqrt 19 / 10, 0⟩
      = ⟨19 / 100, -(9 * Real.sqrt 19 / 100), 0⟩ := by
    refine Vec3.ext ?_ ?_ ?_ <;> simp <;> ring
  rw [hN]
  have hNn : (Vec3.mk (19 / 100) (-(9 * Real.sqrt 19 / 100)) 0).norm
      = Real.sqrt 19 / 10 := by
    unfold Vec3.norm
    refine sqrt_eq_of_sq (by positivity) ?_
    linear_combination (-(19 : ℝ) / 10000) * hs2
  rw [hNn]
  refine Vec3.ext ?_ ?_ ?_ <;> simp
  · rw [div_mul_div_comm, div_eq_div_iff (by positivity) (by norm_num)]
    linear_combination (-100 : ℝ) * hs2
  · field_simp
    ring

/-- Claim C3 (counterexample): at a tangent whose x-component is exactly
`9/10`, the code's fallback uses `e_y` while the claim's rule demands `e_x`;
the two resulting normals differ. -/
theorem C3_counterexample :
    lineCurve09.normal 0 = Except.ok ⟨-(Real.sqrt 19 / 10), 9 / 10, 0⟩
    ∧ fallbackNormalClaim ⟨9 / 10, Real.sqrt 19 / 10, 0⟩
        = ⟨Real.sqrt 19 / 10, -(9 / 10), 0⟩
    ∧ Vec3.mk (-(Real.sqrt 19 / 10)) (9 / 10) 0
        ≠ ⟨Real.sqrt 19 / 10, -(9 / 10), 0⟩ := by
  refine ⟨?_, fallbackClaim09, ?_⟩
  · have hz : ((2 * lineCurve09.dt)⁻¹
        • ((⟨9 / 10, Real.sqrt 19 / 10, 0⟩ : Vec3)
            - ⟨9 / 10, Real.sqrt 19 / 10, 0⟩)).norm = 0 := by
      unfold Vec3.norm
      simp
    rw [normal_eval_fallback lineCurve09 0 _ _ _ (lineCurve09_tangent _)
      (lineCurve09_tangent _) (lineCurve09_tangent _) (by rw [hz]; exact EPS_pos)]
    rw [fallbackCode09]
  · intro hcontra
    have hy : (9 / 10 : ℝ) = -(9 / 10) := congrArg Vec3.y hcontra
    norm_num at hy

/-! ### Helix invariants (claim C5) -/

/-- `curvature` without its local bindings. -/
theorem curvature_eval (c : ParametricCurve) (t : ℝ) :
    c.curvature t = if (c.deriv1 t).norm ^ 3 < EPS then 0
      else (Vec3.cross (c.deriv1 t) (c.deriv2 t)).norm / (c.deriv1 t).norm ^ 3 := rfl

/-- `torsion` without its local bindings. -/
theorem torsion_eval (c : ParametricCurve) (t : ℝ) :
    c.torsion t = if (Vec3.cross (c.deriv1 t) (c.deriv2 t)).norm ^ 2 < EPS then 0
      else Vec3.dot (Vec3.cross (c.deriv1 t) (c.deriv2 t)) (c.deriv3 t)
        / (Vec3.cross (c.deriv1 t) (c.deriv2 t)).norm ^ 2 := rfl

theorem helix_deriv1 (r p t : ℝ) : (helix r p).deriv1 t
    = ⟨-r * Real.sin t, r * Real.cos t, p / (2 * Real.pi)⟩ := rfl

theorem helix_deriv2 (r p t : ℝ) : (helix r p).deriv2 t
    = ⟨-r * Real.cos t, -r * Real.sin t, 0⟩ := rfl

theorem helix_deriv3 (r p t : ℝ) : (helix r p).deriv3 t
    = ⟨r * Real.sin t, -r * Real.cos t, 0⟩ := rfl

/-- Speed of the helix: `√(r² + (p/2π)²)`, constant in `t`. -/
theorem helix_deriv1_norm (r p t : ℝ) :
    ((helix r p).deriv1 t).norm
      = Real.sqrt (r ^ 2 + (p / (2 * Real.pi)) ^ 2) := by
  rw [helix_deriv1]
  unfold Vec3.norm
  congr 1
  linear_combination r ^ 2 * Real.sin_sq_add_cos_sq t

/-- First-times-second-derivative cross product of the helix. -/
theorem helix_cross (r p t : ℝ) :
    Vec3.cross ((helix r p).deriv1 t) ((helix r p).deriv2 t)
      = ⟨p / (2 * Real.pi) * (r * Real.sin t),
          -(p / (2 * Real.pi) * (r * Real.cos t)), r ^ 2⟩ := by
  rw [helix_deriv1, helix_deriv2]
  unfold Vec3.cross
  refine Vec3.ext ?_ ?_ ?_ <;> simp
  linear_combination r ^ 2 * Real.sin_sq_add_cos_sq t

/-- Norm of that cross product: `r·√(r² + (p/2π)²)` for `r ≥ 0`. -/
theorem helix_cross_norm (r p t : ℝ) (hr : 0 ≤ r) :
    (Vec3.cross ((helix r p).deriv1 t) ((helix r p).deriv2 t)).norm
      = r * Real.sqrt (r ^ 2 + (p / (2 * Real.pi)) ^ 2) := by
  rw [helix_cross]
  unfold Vec3.norm
  rw [show (p / (2 * Real.pi) * (r * Real.sin t)) ^ 2
        + (-(p / (2 * Real.pi) * (r * Real.cos t))) ^ 2 + (r ^ 2) ^ 2
      = r ^ 2 * (r ^ 2 + (p / (2 * Real.pi)) ^ 2) by
    linear_combination (r ^ 2 * (p / (2 * Real.pi)) ^ 2)
      * Real.sin_sq_add_cos_sq t]
  rw [Real.sqrt_mul (sq_nonneg r), Real.sqrt_sq hr]

/-- Claim C5 (amended): for the analytic helix with `r > 0`, whenever the
respective `1e-10` denominator guards do not fire, curvature equals
`r/(r² + (p/2π)²)` and torsion equals `(p/2π)/(r² + (p/2π)²)` — both constant
in `t`.  (For radii small enough that a guard fires, the silent-zero policy
returns 0 instead; see the counterexample.) -/
theorem C5_helix_invariants (r p t : ℝ) (hr : 0 < r)
    (hc : ¬ ((helix r p).deriv1 t).norm ^ 3 < EPS)
    (ht : ¬ (Vec3.cross ((helix r p).deriv1 t) ((helix r p).deriv2 t)).norm ^ 2 < EPS) :
    (helix r p).curvature t = r / (r ^ 2 + (p / (2 * Real.pi)) ^ 2)
    ∧ (helix r p).torsion t
        = (p / (2 * Real.pi)) / (r ^ 2 + (p / (2 * Real.pi)) ^ 2) := by
  have hX : 0 < r ^ 2 + (p / (2 * Real.pi)) ^ 2 := by positivity
  have hsX : 0 < Real.sqrt (r ^ 2 + (p / (2 * Real.pi)) ^ 2) := Real.sqrt_pos.mpr hX
  constructor
  · rw [curvature_eval, if_neg hc, helix_cross_norm r p t hr.le, helix_deriv1_norm]
    rw [show Real.sqrt (r ^ 2 + (p / (2 * Real.pi)) ^ 2) ^ 3
          = (r ^ 2 + (p / (2 * Real.pi)) ^ 2)
            * Real.sqrt (r ^ 2 + (p / (2 * Real.pi)) ^ 2) by
      rw [pow_succ, Real.sq_sqrt hX.le]]
    rw [mul_div_mul_right _ _ hsX.ne']
  · rw [torsion_eval, if_neg ht, helix_cross_norm r p t hr.le, helix_cross, helix_deriv3]
    have hdot : Vec3.dot
        ⟨p / (2 * Real.pi) * (r * Real.sin t),
          -(p / (2 * Real.pi) * (r * Real.cos t)), r ^ 2⟩
        ⟨r * Real.sin t, -r * Real.cos t, 0⟩
        = r ^ 2 * (p / (2 * Real.pi)) := by
      unfold Vec3.dot
      linear_combination r ^ 2 * (p / (2 * Real.pi)) * Real.sin_sq_add_cos_sq t
    rw [hdot, mul_pow, Real.sq_sqrt hX.le]
    rw [show r ^ 2 * (r ^ 2 + (p / (2 * Real.pi)) ^ 2)
          = r ^ 2 * (r ^ 2 + (p / (2 * Real.pi)) ^ 2) from rfl]
    rw [mul_div_mul_left _ _ (pow_ne_zero 2 hr.ne')]

/-- Witness for C5: the unit-radius, zero-pitch helix (a circle) has
curvature 1 and torsion 0. -/
theorem C5_helix_invariants_witness :
    (helix 1 0).curvature 0 = 1 ∧ (helix 1 0).torsion 0 = 0 := by
  have hn : ((helix 1 0).deriv1 0).norm = 1 := by
    rw [helix_deriv1_norm]
    rw [show (1 : ℝ) ^ 2 + ((0 : ℝ) / (2 * Real.pi)) ^ 2 = 1 by
      rw [zero_div]; norm_num]
    exact Real.sqrt_one
  have hcn : (Vec3.cross ((helix 1 0).deriv1 0) ((helix 1 0).deriv2 0)).norm = 1 := by
    rw [helix_cross_norm 1 0 0 (by norm_num)]
    rw [show (1 : ℝ) ^ 2 + ((0 : ℝ) / (2 * Real.pi)) ^ 2 = 1 by
      rw [zero_div]; norm_num]
    rw [Real.sqrt_one, mul_one]
  have H := C5_helix_invariants 1 0 0 one_pos
    (by rw [hn]; unfold EPS; norm_num)
    (by rw [hcn]; unfold EPS; norm_num)
  refine ⟨?_, ?_⟩
  · rw [H.1, zero_div]
    norm_num
  · rw [H.2, zero_div]
    norm_num

/-- Claim C5 (counterexample): for the helix of radius `1e-5` and pitch `0`
the silent-zero guard fires (`‖γ′‖³ = 1e-15 < 1e-10`), so `curvature` returns
`0` while the closed form `r/(r² + (p/2π)²) = 1e5` is nonzero — the claim as
stated fails for small positive radii. -/
theorem C5_counterexample :
    (helix 1e-5 0).curvature 0 = 0
    ∧ (1e-5 : ℝ) / ((1e-5 : ℝ) ^ 2 + ((0 : ℝ) / (2 * Real.pi)) ^ 2) ≠ 0 := by
  have hn : ((helix 1e-5 0).deriv1 0).norm = 1e-5 := by
    rw [helix_deriv1_norm]
    rw [show (1e-5 : ℝ) ^ 2 + ((0 : ℝ) / (2 * Real.pi)) ^ 2 = (1e-5 : ℝ) ^ 2 by
      rw [zero_div]; norm_num]
    exact Real.sqrt_sq (by norm_num)
  constructor
  · rw [curvature_eval, if_pos (by rw [hn]; unfold EPS; norm_num)]
  · rw [zero_div]
    norm_num

end CollectiveDynamics
